import Mathlib

/-
Shallow embedding of the tinydraw-rs pixel-buffer core (src/image_rgb8.rs).

Modelling conventions:
* `usize` values are modelled as `Nat`.  Where the Rust code performs a
  subtraction that can underflow (and hence panic in debug builds, or wrap and
  then fail a later bounds/index check in release builds), the model uses
  `checkedSub`, returning an error.  Where the surrounding checks make the
  subtraction provably safe, plain truncated `Nat` subtraction is used.
* `f64` arithmetic is modelled as exact arithmetic on `ℚ`.  `f64::round`
  (round half away from zero) agrees with Mathlib's `round` on the
  non-negative values arising here; `as usize` on a non-negative float is
  `Int.toNat`; the saturating `as u8` cast is `f64_to_u8` below.
* Rust methods that panic are modelled as functions returning
  `ImageRGB8 × Option DrawError`: the first component is the state of the
  buffer at the moment the function stopped (this is what a caller observes
  around a panic), the second is `none` on success and the panic kind
  otherwise.
* Writes through `image_data[i] = …` / slice `fill` that are guarded by the
  already-performed bounds checks are modelled with the total `List.set`
  (a no-op out of range); the index-bound theorems below show the indices are
  in range for well-formed buffers, so the total model coincides.
-/

namespace TinyDraw

/-- An RGB8 pixel (`[u8; 3]` in the source); channel values are `Nat`s. -/
structure Pixel where
  r : Nat
  g : Nat
  b : Nat
deriving DecidableEq

/-- The `BackgroundRGB8` enum of the source. -/
inductive BackgroundRGB8 where
  | color (c : Pixel)
  | image (data : List Pixel)
deriving DecidableEq

/-- The `ImageRGB8` struct of the source. -/
structure ImageRGB8 where
  width : Nat
  height : Nat
  image_data : List Pixel
  background_data : BackgroundRGB8
deriving DecidableEq

/-- The panics/failures the modelled operations can produce. -/
inductive DrawError where
  | outOfBounds
  | thicknessTooLarge
  | invalidByteLength
  | panicUnderflow
  | panicIndex
deriving DecidableEq

/-- Checked `Nat` subtraction: `none` exactly when the Rust `usize`
subtraction `a - b` would underflow. -/
def checkedSub (a b : Nat) : Option Nat :=
  if b ≤ a then some (a - b) else none

/-- Default pixel handed to `List.getD`; reads are only performed at indices
shown to be in range, so it never leaks into results of well-formed runs. -/
def dfltPix : Pixel := ⟨0, 0, 0⟩

/-- Well-formedness invariant of a buffer: the pixel array has exactly
`width * height` entries (`len(samples) == width * height` in the spec). -/
def WF (img : ImageRGB8) : Prop :=
  img.image_data.length = img.width * img.height

/-- `ImageRGB8::new`. -/
def new (width height : Nat) (background : Pixel) : ImageRGB8 :=
  ⟨width, height, List.replicate (width * height) background,
    .color background⟩

/-- `rgb8_to_bytes`: flatten pixels into a byte list, 3 bytes per pixel. -/
def rgb8_to_bytes : List Pixel → List Nat
  | [] => []
  | p :: rest => p.r :: p.g :: p.b :: rgb8_to_bytes rest

/-- `bytes_to_rgb8`: regroup a byte list into pixels, 3 bytes per pixel
(only ever applied to lists whose length is a multiple of 3). -/
def bytes_to_rgb8 : List Nat → List Pixel
  | r :: g :: b :: rest => ⟨r, g, b⟩ :: bytes_to_rgb8 rest
  | _ => []

/-- `ImageRGB8::to_bytes`. -/
def to_bytes (img : ImageRGB8) : List Nat :=
  rgb8_to_bytes img.image_data

/-- `ImageRGB8::from_bytes` (the spec's `from_samples`). -/
def from_bytes (width height : Nat) (bytes : List Nat) :
    Except DrawError ImageRGB8 :=
  if width * height * 3 ≠ bytes.length then
    .error .invalidByteLength
  else
    .ok ⟨width, height, bytes_to_rgb8 bytes, .image (bytes_to_rgb8 bytes)⟩

/-- `ImageRGB8::clear`: `Vec::fill` keeps the current length, so the solid
case fills `image_data.length` entries. -/
def clear (img : ImageRGB8) : ImageRGB8 :=
  match img.background_data with
  | .color c => { img with image_data := List.replicate img.image_data.length c }
  | .image bg => { img with image_data := bg }

/-- `ImageRGB8::get_pixel`: explicit bounds check, then a read through the
bottom-left-origin index mapping. -/
def get_pixel (img : ImageRGB8) (x y : Nat) : Except DrawError Pixel :=
  if x ≥ img.width ∨ y ≥ img.height then
    .error .outOfBounds
  else
    .ok (img.image_data.getD (img.width * (img.height - 1 - y) + x) dfltPix)

/-- `ImageRGB8::set_pixel`.  The source performs NO bounds check here: it
computes `width * (height - 1 - y) + x` (whose subtractions can underflow)
and writes through it, panicking only if the flat index misses the array. -/
def set_pixel (img : ImageRGB8) (x y : Nat) (color : Pixel) :
    ImageRGB8 × Option DrawError :=
  match checkedSub img.height (1 + y) with
  | none => (img, some .panicUnderflow)
  | some row =>
    let idx := img.width * row + x
    if idx < img.image_data.length then
      ({ img with image_data := img.image_data.set idx color }, none)
    else
      (img, some .panicIndex)

/-- The slope `((y1 as f64) - (y2 as f64)) / ((x1 as f64) - (x2 as f64))`
of `draw_line`, in exact arithmetic. -/
def slopeOf (x1 y1 x2 y2 : Nat) : ℚ :=
  ((y1 : ℚ) - (y2 : ℚ)) / ((x1 : ℚ) - (x2 : ℚ))

/-- The interpolated `y` of the shallow branch:
`slope * ((x - x1) as f64) + (y1 as f64)` (the `x - x1` is `usize`
subtraction in the source; the loop guarantees `x1 ≤ x`). -/
def yExact (x1 y1 x2 y2 x : Nat) : ℚ :=
  slopeOf x1 y1 x2 y2 * ((x - x1 : Nat) : ℚ) + (y1 : ℚ)

/-- The interpolated `x` of the steep branch:
`((y - y1) as f64) / slope + (x1 as f64)`. -/
def xExact (x1 y1 x2 y2 y : Nat) : ℚ :=
  ((y - y1 : Nat) : ℚ) / slopeOf x1 y1 x2 y2 + (x1 : ℚ)

/-- The snapping test `(v - v.round()).abs() < 0.00001` of `draw_line`. -/
def nearInt (q : ℚ) : Prop :=
  |q - ((round q : ℤ) : ℚ)| < 1 / 100000

instance (q : ℚ) : Decidable (nearInt q) := by
  unfold nearInt
  infer_instance

/-- The saturating `f64 → u8` conversion `v.round() as u8`. -/
def f64_to_u8 (q : ℚ) : Nat :=
  min 255 (round q).toNat

/-- One channel of the background-aware blend:
`old * old_percentage + new * new_percentage`, rounded and cast to `u8`. -/
def blendChannel (old cnew : Nat) (oldPct newPct : ℚ) : Nat :=
  f64_to_u8 ((old : ℚ) * oldPct + (cnew : ℚ) * newPct)

/-- The per-pixel blend loop (`for channel in 0..color.len()`), written
componentwise. -/
def blendPixel (old cnew : Pixel) (oldPct newPct : ℚ) : Pixel :=
  ⟨blendChannel old.r cnew.r oldPct newPct,
   blendChannel old.g cnew.g oldPct newPct,
   blendChannel old.b cnew.b oldPct newPct⟩

/-- Index written by the shallow snap branch:
`width * (height - 1 - (y.round() as usize)) + x`. -/
def shallowSnapInd (w h x1 y1 x2 y2 x : Nat) : Nat :=
  w * (h - 1 - (round (yExact x1 y1 x2 y2 x)).toNat) + x

/-- `pix1_ind` of the shallow blend branch:
`width * (height - 1 - (y.ceil() as usize)) + x`. -/
def shallowPix1Ind (w h x1 y1 x2 y2 x : Nat) : Nat :=
  w * (h - 1 - (Int.toNat ⌈yExact x1 y1 x2 y2 x⌉)) + x

/-- Index written by the steep snap branch:
`width * (height - 1 - y) + (x.round() as usize)`. -/
def steepSnapInd (w h x1 y1 x2 y2 y : Nat) : Nat :=
  w * (h - 1 - y) + (round (xExact x1 y1 x2 y2 y)).toNat

/-- `pix1_ind` of the steep blend branch:
`width * (height - 1 - y) + (x.floor() as usize)`. -/
def steepPix1Ind (w h x1 y1 x2 y2 y : Nat) : Nat :=
  w * (h - 1 - y) + (Int.toNat ⌊xExact x1 y1 x2 y2 y⌋)

/-- Body of the shallow (`|slope| ≤ 1`) loop of `draw_line` at one `x`. -/
def shallowStep (w h x1 y1 x2 y2 : Nat) (color : Pixel)
    (data : List Pixel) (x : Nat) : List Pixel :=
  let y := yExact x1 y1 x2 y2 x
  if nearInt y then
    data.set (shallowSnapInd w h x1 y1 x2 y2 x) color
  else
    let pix1_percentage : ℚ := y - (⌊y⌋ : ℚ)
    let pix2_percentage : ℚ := 1 - pix1_percentage
    let pix1_ind := shallowPix1Ind w h x1 y1 x2 y2 x
    let pix2_ind := pix1_ind + w
    let d1 := data.set pix1_ind
      (blendPixel (data.getD pix1_ind dfltPix) color pix2_percentage pix1_percentage)
    d1.set pix2_ind
      (blendPixel (d1.getD pix2_ind dfltPix) color pix1_percentage pix2_percentage)

/-- Body of the steep (`|slope| > 1`) loop of `draw_line` at one `y`. -/
def steepStep (w h x1 y1 x2 y2 : Nat) (color : Pixel)
    (data : List Pixel) (y : Nat) : List Pixel :=
  let x := xExact x1 y1 x2 y2 y
  if nearInt x then
    data.set (steepSnapInd w h x1 y1 x2 y2 y) color
  else
    let pix1_percentage : ℚ := (⌈x⌉ : ℚ) - x
    let pix2_percentage : ℚ := 1 - pix1_percentage
    let pix1_ind := steepPix1Ind w h x1 y1 x2 y2 y
    let pix2_ind := pix1_ind + 1
    let d1 := data.set pix1_ind
      (blendPixel (data.getD pix1_ind dfltPix) color pix2_percentage pix1_percentage)
    d1.set pix2_ind
      (blendPixel (d1.getD pix2_ind dfltPix) color pix1_percentage pix2_percentage)

/-- `ImageRGB8::draw_line`.  `for i in a..(b + 1)` iterates over
`List.range' a (b + 1 - a)`, which is `[a, …, b]` when `a ≤ b` and empty
otherwise, exactly like the Rust range. -/
def draw_line (img : ImageRGB8) (x1 y1 x2 y2 : Nat) (color : Pixel) :
    ImageRGB8 × Option DrawError :=
  if x1 ≥ img.width ∨ x2 ≥ img.width ∨ y1 ≥ img.height ∨ y2 ≥ img.height then
    (img, some .outOfBounds)
  else if x1 = x2 then
    let d :=
      (List.range' y1 (y2 + 1 - y1)).foldl
        (fun d y => d.set (img.width * (img.height - 1 - y) + x1) color)
        img.image_data
    ({ img with image_data := d }, none)
  else if |slopeOf x1 y1 x2 y2| ≤ 1 then
    let d :=
      (List.range' x1 (x2 + 1 - x1)).foldl
        (shallowStep img.width img.height x1 y1 x2 y2 color)
        img.image_data
    ({ img with image_data := d }, none)
  else
    let d :=
      (List.range' y1 (y2 + 1 - y1)).foldl
        (steepStep img.width img.height x1 y1 x2 y2 color)
        img.image_data
    ({ img with image_data := d }, none)

/-- `image_data[start..(start + count)].fill(color)`, as `count` single
writes (the guarding bounds checks keep them in range). -/
def setRange : List Pixel → Nat → Nat → Pixel → List Pixel
  | data, _, 0, _ => data
  | data, start, n + 1, c => setRange (data.set start c) (start + 1) n c

/-- The writes of one `draw_rectangle` call (two horizontal slice fills,
then the two vertical sides pixel by pixel). -/
def rectLayer (w h x1 y1 x2 y2 : Nat) (c : Pixel) (data : List Pixel) :
    List Pixel :=
  let smaller_x := min x1 x2
  let bigger_x := max x1 x2
  let smaller_y := min y1 y2
  let bigger_y := max y1 y2
  let d0 := setRange data (w * (h - 1 - y1) + smaller_x) (bigger_x + 1 - smaller_x) c
  let d1 := setRange d0 (w * (h - 1 - y2) + smaller_x) (bigger_x + 1 - smaller_x) c
  (List.range' smaller_y (bigger_y + 1 - smaller_y)).foldl
    (fun d y =>
      (d.set (w * (h - 1 - y) + smaller_x) c).set (w * (h - 1 - y) + bigger_x) c)
    d1

/-- `ImageRGB8::draw_rectangle`.  The recursion on `thickness - 1` happens
only when `thickness > 1`; `bigger_x - 1` and `bigger_y - 1` of the
recursive call are `usize` subtractions that panic on underflow in debug
builds (in release they wrap, and the wrapped huge coordinate then fails
the bounds check of the recursive call), so the underflowing case is
modelled as an error. -/
def draw_rectangle (img : ImageRGB8) (x1 y1 x2 y2 : Nat) (color : Pixel)
    (thickness : Nat) : ImageRGB8 × Option DrawError :=
  let smaller_x := min x1 x2
  let bigger_x := max x1 x2
  if x1 ≥ img.width ∨ x2 ≥ img.width ∨ y1 ≥ img.height ∨ y2 ≥ img.height then
    (img, some .outOfBounds)
  else if thickness > (bigger_x - smaller_x) / 2 + 1 then
    (img, some .thicknessTooLarge)
  else
    let smaller_y := min y1 y2
    let bigger_y := max y1 y2
    let d := rectLayer img.width img.height x1 y1 x2 y2 color img.image_data
    let img' := { img with image_data := d }
    if thickness > 1 then
      if 1 ≤ bigger_x ∧ 1 ≤ bigger_y then
        draw_rectangle img' (smaller_x + 1) (smaller_y + 1) (bigger_x - 1)
          (bigger_y - 1) color (thickness - 1)
      else
        (img', some .panicUnderflow)
    else
      (img', none)
termination_by thickness
decreasing_by omega

/-- `ImageRGB8::draw_rectangle_filled`: one slice fill per row. -/
def draw_rectangle_filled (img : ImageRGB8) (x1 y1 x2 y2 : Nat)
    (color : Pixel) : ImageRGB8 × Option DrawError :=
  if x1 ≥ img.width ∨ x2 ≥ img.width ∨ y1 ≥ img.height ∨ y2 ≥ img.height then
    (img, some .outOfBounds)
  else
    let smaller_x := min x1 x2
    let bigger_x := max x1 x2
    let smaller_y := min y1 y2
    let bigger_y := max y1 y2
    let d :=
      (List.range' smaller_y (bigger_y + 1 - smaller_y)).foldl
        (fun d y =>
          setRange d (img.width * (img.height - 1 - y) + smaller_x)
            (bigger_x + 1 - smaller_x) color)
        img.image_data
    ({ img with image_data := d }, none)

/-- Observation of the pixel at logical coordinates `(x, y)` through the
buffer's bottom-left-origin index mapping. -/
def pixelAt (img : ImageRGB8) (x y : Nat) : Pixel :=
  img.image_data.getD (img.width * (img.height - 1 - y) + x) dfltPix

/-- One drawing call, for reasoning about call sequences. -/
inductive DrawOp where
  | line (x1 y1 x2 y2 : Nat) (color : Pixel)
  | rect (x1 y1 x2 y2 : Nat) (color : Pixel) (thickness : Nat)
  | rectFilled (x1 y1 x2 y2 : Nat) (color : Pixel)
  | setPix (x y : Nat) (color : Pixel)
deriving DecidableEq

/-- Dispatch one drawing call. -/
def applyOp (img : ImageRGB8) : DrawOp → ImageRGB8 × Option DrawError
  | .line x1 y1 x2 y2 c => draw_line img x1 y1 x2 y2 c
  | .rect x1 y1 x2 y2 c t => draw_rectangle img x1 y1 x2 y2 c t
  | .rectFilled x1 y1 x2 y2 c => draw_rectangle_filled img x1 y1 x2 y2 c
  | .setPix x y c => set_pixel img x y c

/-- Run a sequence of drawing calls, stopping at the first failure. -/
def applySeq (img : ImageRGB8) : List DrawOp → ImageRGB8 × Option DrawError
  | [] => (img, none)
  | op :: rest =>
    match applyOp img op with
    | (img', none) => applySeq img' rest
    | (img', some e) => (img', some e)

/-- Statement-side reading of the spec's blend formula, for the refinement
claim about anti-aliased blending:
`new_channel = round(old_channel * (1 - coverage) + color_channel * coverage)`. -/
def specBlendChannel (old cnew : Nat) (coverage : ℚ) : Nat :=
  f64_to_u8 ((old : ℚ) * (1 - coverage) + (cnew : ℚ) * coverage)

/-- The spec's blend formula applied to all three channels of a pixel. -/
def specBlendPixel (old cnew : Pixel) (coverage : ℚ) : Pixel :=
  ⟨specBlendChannel old.r cnew.r coverage,
   specBlendChannel old.g cnew.g coverage,
   specBlendChannel old.b cnew.b coverage⟩

/-- The pixel data described by a buffer's Background: a solid fill of the
whole `width * height` area, or the captured snapshot. -/
def backgroundPixels (img : ImageRGB8) : List Pixel :=
  match img.background_data with
  | .color c => List.replicate (img.width * img.height) c
  | .image bg => bg

theorem getD_set {α : Type} (l : List α) (i j : Nat) (a d : α) :
    (l.set i a).getD j d = if i = j ∧ j < l.length then a else l.getD j d := by
  simp only [List.getD_eq_getElem?_getD, List.getElem?_set]
  by_cases hij : i = j
  · subst hij
    by_cases hi : i < l.length
    · simp [hi]
    · simp [hi, List.getElem?_eq_none (Nat.le_of_not_lt hi)]
  · simp [hij]

theorem getD_set_ne {α : Type} (l : List α) (i j : Nat) (a d : α)
    (h : i ≠ j) : (l.set i a).getD j d = l.getD j d := by
  rw [getD_set]
  simp [h]

theorem foldl_paint_length (step : List Pixel → Nat → List Pixel)
    (hlen : ∀ d y, (step d y).length = d.length) (ys : List Nat)
    (d : List Pixel) : (ys.foldl step d).length = d.length := by
  induction ys generalizing d with
  | nil => rfl
  | cons y ys ih => rw [List.foldl_cons, ih, hlen]

theorem foldl_paint_getD (step : List Pixel → Nat → List Pixel)
    (P : Nat → Nat → Prop) [∀ y j, Decidable (P y j)] (c dflt : Pixel)
    (hlen : ∀ d y, (step d y).length = d.length)
    (hget : ∀ d y j, (step d y).getD j dflt =
      if P y j ∧ j < d.length then c else d.getD j dflt)
    (ys : List Nat) (d : List Pixel) (j : Nat) :
    (ys.foldl step d).getD j dflt =
      if (∃ y ∈ ys, P y j) ∧ j < d.length then c else d.getD j dflt := by
  induction ys generalizing d with
  | nil => simp
  | cons y ys ih =>
    rw [List.foldl_cons, ih, hget, hlen]
    by_cases hj : j < d.length
    · by_cases h1 : ∃ y' ∈ ys, P y' j
      · simp [h1, hj]
      · by_cases h0 : P y j
        · simp [h0, hj, h1]
        · have : ¬ ∃ y' ∈ y :: ys, P y' j := by
            rintro ⟨y', hy', hPy'⟩
            rcases List.mem_cons.1 hy' with rfl | hy'
            · exact h0 hPy'
            · exact h1 ⟨y', hy', hPy'⟩
          simp [h1, h0, this]
    · simp [hj]

theorem setRange_length (d : List Pixel) (s n : Nat) (c : Pixel) :
    (setRange d s n c).length = d.length := by
  induction n generalizing d s with
  | zero => rfl
  | succ n ih => rw [setRange, ih, List.length_set]

theorem setRange_getD (d : List Pixel) (s n : Nat) (c dflt : Pixel) (j : Nat) :
    (setRange d s n c).getD j dflt =
      if (s ≤ j ∧ j < s + n) ∧ j < d.length then c else d.getD j dflt := by
  induction n generalizing d s with
  | zero =>
    rw [setRange, if_neg (by omega)]
  | succ n ih =>
    rw [setRange, ih, List.length_set, getD_set]
    by_cases hj : j < d.length
    · by_cases h1 : s + 1 ≤ j ∧ j < s + 1 + n
      · have : s ≤ j ∧ j < s + (n + 1) := by omega
        simp [h1, hj, this]
      · by_cases h0 : s = j
        · have : s ≤ j ∧ j < s + (n + 1) := by omega
          simp [h1, hj, h0, this]
        · have : ¬ (s ≤ j ∧ j < s + (n + 1)) := by omega
          simp [h1, hj, h0, this]
    · simp [hj]

theorem index_lt (w h x y : Nat) (hx : x < w) (hy : y < h) :
    w * (h - 1 - y) + x < w * h := by
  have h2 : w * (h - 1 - y) ≤ w * (h - 1) := Nat.mul_le_mul_left w (by omega)
  have h4 : w * (h - 1) + w = w * h := by
    rw [← Nat.mul_succ]
    congr 1
    omega
  omega

theorem index_inj (w h x y x' y' : Nat) (hx : x < w) (hx' : x' < w)
    (hy : y < h) (hy' : y' < h)
    (heq : w * (h - 1 - y) + x = w * (h - 1 - y') + x') : x = x' ∧ y = y' := by
  have hw : 0 < w := Nat.lt_of_le_of_lt (Nat.zero_le x) hx
  have hxx : x = x' := by
    have hmod := congrArg (fun t => t % w) heq
    simpa [Nat.mul_add_mod, Nat.mod_eq_of_lt hx, Nat.mod_eq_of_lt hx'] using hmod
  refine ⟨hxx, ?_⟩
  subst hxx
  have hrow : w * (h - 1 - y) = w * (h - 1 - y') := by omega
  have := Nat.eq_of_mul_eq_mul_left hw hrow
  omega

theorem bytes_rgb8_roundtrip (l : List Pixel) :
    bytes_to_rgb8 (rgb8_to_bytes l) = l := by
  induction l with
  | nil => rfl
  | cons p rest ih => rw [rgb8_to_bytes, bytes_to_rgb8, ih]

theorem rgb8_to_bytes_length (l : List Pixel) :
    (rgb8_to_bytes l).length = 3 * l.length := by
  induction l with
  | nil => rfl
  | cons p rest ih =>
    rw [rgb8_to_bytes]
    simp only [List.length_cons, ih]
    omega

/-- Fields other than the pixel data, together with the pixel count, are
preserved by an operation's result. -/
def sameFrame (a b : ImageRGB8) : Prop :=
  a.width = b.width ∧ a.height = b.height ∧
  a.background_data = b.background_data ∧
  a.image_data.length = b.image_data.length

theorem sameFrame_refl (a : ImageRGB8) : sameFrame a a :=
  ⟨rfl, rfl, rfl, rfl⟩

theorem sameFrame_trans {a b c : ImageRGB8} (h1 : sameFrame a b)
    (h2 : sameFrame b c) : sameFrame a c := by
  obtain ⟨w1, h1', b1, l1⟩ := h1
  obtain ⟨w2, h2', b2, l2⟩ := h2
  exact ⟨w1.trans w2, h1'.trans h2', b1.trans b2, l1.trans l2⟩

theorem shallowStep_length (w h x1 y1 x2 y2 : Nat) (c : Pixel)
    (d : List Pixel) (x : Nat) :
    (shallowStep w h x1 y1 x2 y2 c d x).length = d.length := by
  rw [shallowStep]
  split
  · rw [List.length_set]
  · rw [List.length_set, List.length_set]

theorem steepStep_length (w h x1 y1 x2 y2 : Nat) (c : Pixel)
    (d : List Pixel) (y : Nat) :
    (steepStep w h x1 y1 x2 y2 c d y).length = d.length := by
  rw [steepStep]
  split
  · rw [List.length_set]
  · rw [List.length_set, List.length_set]

theorem rectLayer_length (w h x1 y1 x2 y2 : Nat) (c : Pixel)
    (d : List Pixel) : (rectLayer w h x1 y1 x2 y2 c d).length = d.length := by
  rw [rectLayer]
  rw [foldl_paint_length]
  · rw [setRange_length, setRange_length]
  · intro d' y
    rw [List.length_set, List.length_set]

theorem draw_line_frame (img : ImageRGB8) (x1 y1 x2 y2 : Nat) (c : Pixel) :
    sameFrame ((draw_line img x1 y1 x2 y2 c).1) img := by
  rw [draw_line]
  split
  · exact sameFrame_refl img
  · split
    · refine ⟨rfl, rfl, rfl, ?_⟩
      exact foldl_paint_length _ (fun d y => List.length_set ..) _ _
    · split
      · refine ⟨rfl, rfl, rfl, ?_⟩
        exact foldl_paint_length _ (shallowStep_length _ _ _ _ _ _ c) _ _
      · refine ⟨rfl, rfl, rfl, ?_⟩
        exact foldl_paint_length _ (steepStep_length _ _ _ _ _ _ c) _ _

theorem draw_rectangle_frame (thickness : Nat) :
    ∀ (img : ImageRGB8) (x1 y1 x2 y2 : Nat) (c : Pixel),
    sameFrame ((draw_rectangle img x1 y1 x2 y2 c thickness).1) img := by
  induction thickness using Nat.strong_induction_on with
  | _ t ih =>
    intro img x1 y1 x2 y2 c
    rw [draw_rectangle]
    dsimp only
    by_cases h1 : x1 ≥ img.width ∨ x2 ≥ img.width ∨ y1 ≥ img.height ∨ y2 ≥ img.height
    · rw [if_pos h1]
      exact sameFrame_refl img
    · rw [if_neg h1]
      by_cases h2 : t > (max x1 x2 - min x1 x2) / 2 + 1
      · rw [if_pos h2]
        exact sameFrame_refl img
      · rw [if_neg h2]
        have hlayer : sameFrame
            { img with image_data :=
                rectLayer img.width img.height x1 y1 x2 y2 c img.image_data }
            img := ⟨rfl, rfl, rfl, rectLayer_length ..⟩
        by_cases h3 : t > 1
        · rw [if_pos h3]
          by_cases h4 : 1 ≤ max x1 x2 ∧ 1 ≤ max y1 y2
          · rw [if_pos h4]
            exact sameFrame_trans (ih (t - 1) (by omega) _ _ _ _ _ _) hlayer
          · rw [if_neg h4]
            exact hlayer
        · rw [if_neg h3]
          exact hlayer

theorem draw_rectangle_filled_frame (img : ImageRGB8) (x1 y1 x2 y2 : Nat)
    (c : Pixel) :
    sameFrame ((draw_rectangle_filled img x1 y1 x2 y2 c).1) img := by
  rw [draw_rectangle_filled]
  split
  · exact sameFrame_refl img
  · refine ⟨rfl, rfl, rfl, ?_⟩
    exact foldl_paint_length _ (fun d y => setRange_length ..) _ _

theorem set_pixel_frame (img : ImageRGB8) (x y : Nat) (c : Pixel) :
    sameFrame ((set_pixel img x y c).1) img := by
  rw [set_pixel]
  split
  · exact sameFrame_refl img
  · dsimp only
    split
    · exact ⟨rfl, rfl, rfl, List.length_set ..⟩
    · exact sameFrame_refl img

theorem applyOp_frame (img : ImageRGB8) (op : DrawOp) :
    sameFrame ((applyOp img op).1) img := by
  cases op with
  | line x1 y1 x2 y2 c => exact draw_line_frame ..
  | rect x1 y1 x2 y2 c t => exact draw_rectangle_frame ..
  | rectFilled x1 y1 x2 y2 c => exact draw_rectangle_filled_frame ..
  | setPix x y c => exact set_pixel_frame ..

theorem applySeq_frame (ops : List DrawOp) :
    ∀ img : ImageRGB8, sameFrame ((applySeq img ops).1) img := by
  induction ops with
  | nil => intro img; exact sameFrame_refl img
  | cons op rest ih =>
    intro img
    rw [applySeq]
    rcases hop : applyOp img op with ⟨img', e⟩
    have hf : sameFrame img' img := by
      have := applyOp_frame img op
      rwa [hop] at this
    cases e with
    | none => exact sameFrame_trans (ih img') hf
    | some err => exact hf

/-- C8: for every well-formed buffer, `from_samples(width, height,
to_bytes())` succeeds and reconstructs exactly the buffer's pixel data
(with the reconstructed data also captured as the Snapshot background). -/
theorem C8_bytes_roundtrip (img : ImageRGB8) (hWF : WF img) :
    from_bytes img.width img.height (to_bytes img) =
      .ok ⟨img.width, img.height, img.image_data, .image img.image_data⟩ := by
  rw [from_bytes, to_bytes]
  rw [if_neg]
  · rw [bytes_rgb8_roundtrip]
  · rw [rgb8_to_bytes_length, hWF]
    omega

/-- Witness for C8 at a concrete 2 × 1 buffer with distinct pixels. -/
theorem C8_bytes_roundtrip_witness :
    WF ⟨2, 1, [⟨1, 2, 3⟩, ⟨4, 5, 6⟩], .color ⟨0, 0, 0⟩⟩ ∧
    from_bytes 2 1 (to_bytes ⟨2, 1, [⟨1, 2, 3⟩, ⟨4, 5, 6⟩], .color ⟨0, 0, 0⟩⟩) =
      .ok ⟨2, 1, [⟨1, 2, 3⟩, ⟨4, 5, 6⟩], .image [⟨1, 2, 3⟩, ⟨4, 5, 6⟩]⟩ :=
  ⟨by unfold WF; decide,
   C8_bytes_roundtrip ⟨2, 1, [⟨1, 2, 3⟩, ⟨4, 5, 6⟩], .color ⟨0, 0, 0⟩⟩
     (by unfold WF; decide)⟩

/-- C7: after any sequence of successful drawing calls, `clear` restores the
pixel data byte-for-byte to the Background (solid fill, or the captured
snapshot), and `clear` leaves the Background value itself unchanged. -/
theorem clear_background (a : ImageRGB8) :
    (clear a).background_data = a.background_data := by
  rcases h : a.background_data with c | bg
  · rw [clear, h]
  · rw [clear, h]

theorem clear_data_color (a : ImageRGB8) (c : Pixel)
    (h : a.background_data = .color c) :
    (clear a).image_data = List.replicate a.image_data.length c := by
  rw [clear, h]

theorem clear_data_image (a : ImageRGB8) (bg : List Pixel)
    (h : a.background_data = .image bg) : (clear a).image_data = bg := by
  rw [clear, h]

theorem C7_clear_restores_background (img : ImageRGB8) (ops : List DrawOp)
    (hWF : WF img) (hok : (applySeq img ops).2 = none) :
    (clear ((applySeq img ops).1)).image_data = backgroundPixels img ∧
    (clear ((applySeq img ops).1)).background_data = img.background_data := by
  obtain ⟨hw, hh, hbg, hlen⟩ := applySeq_frame ops img
  refine ⟨?_, (clear_background _).trans hbg⟩
  rcases himg : img.background_data with c | bg
  · rw [clear_data_color _ c (hbg.trans himg), hlen, hWF, backgroundPixels, himg]
  · rw [clear_data_image _ bg (hbg.trans himg), backgroundPixels, himg]

/-- Witness for C7: a concrete 2 × 2 buffer, a successful sequence of a
pixel write, a vertical line and a filled rectangle, then `clear`. -/
theorem C7_clear_restores_background_witness :
    WF (new 2 2 ⟨8, 8, 8⟩) ∧
    (applySeq (new 2 2 ⟨8, 8, 8⟩)
      [.setPix 0 0 ⟨5, 5, 5⟩, .line 1 0 1 1 ⟨7, 7, 7⟩,
       .rectFilled 0 0 1 1 ⟨3, 3, 3⟩]).2 = none ∧
    (clear ((applySeq (new 2 2 ⟨8, 8, 8⟩)
      [.setPix 0 0 ⟨5, 5, 5⟩, .line 1 0 1 1 ⟨7, 7, 7⟩,
       .rectFilled 0 0 1 1 ⟨3, 3, 3⟩]).1)).image_data =
      backgroundPixels (new 2 2 ⟨8, 8, 8⟩) := by
  refine ⟨by unfold WF; decide, by decide, ?_⟩
  exact (C7_clear_restores_background (new 2 2 ⟨8, 8, 8⟩)
    [.setPix 0 0 ⟨5, 5, 5⟩, .line 1 0 1 1 ⟨7, 7, 7⟩,
     .rectFilled 0 0 1 1 ⟨3, 3, 3⟩] (by unfold WF; decide) (by decide)).1

theorem draw_rectangle_no_thickness_error (t : Nat) :
    ∀ (img : ImageRGB8) (x1 y1 x2 y2 : Nat) (c : Pixel),
    t ≤ (max x1 x2 - min x1 x2) / 2 + 1 →
    (draw_rectangle img x1 y1 x2 y2 c t).2 ≠ some .thicknessTooLarge := by
  induction t using Nat.strong_induction_on with
  | _ t ih =>
    intro img x1 y1 x2 y2 c hbound
    rw [draw_rectangle]
    dsimp only
    by_cases h1 : x1 ≥ img.width ∨ x2 ≥ img.width ∨ y1 ≥ img.height ∨ y2 ≥ img.height
    · rw [if_pos h1]
      intro h
      exact DrawError.noConfusion (Option.some.inj h)
    · rw [if_neg h1, if_neg (by omega)]
      by_cases h3 : t > 1
      · rw [if_pos h3]
        by_cases h4 : 1 ≤ max x1 x2 ∧ 1 ≤ max y1 y2
        · rw [if_pos h4]
          refine ih (t - 1) (by omega) _ _ _ _ _ _ ?_
          have hxx : max (min x1 x2 + 1) (max x1 x2 - 1) - min (min x1 x2 + 1) (max x1 x2 - 1) = max x1 x2 - min x1 x2 - 2 := by
            omega
          rw [hxx]
          omega
        · rw [if_neg h4]
          intro h
          exact DrawError.noConfusion (Option.some.inj h)
      · rw [if_neg h3]
        intro h
        exact Option.noConfusion h

/-- C6: for an in-bounds `draw_rectangle` call, the call fails with
`ThicknessTooLarge` exactly when `thickness > (|x2 - x1| / 2) + 1` (integer
division), and on that failure the buffer is unmodified. -/
theorem C6_thickness_check (img : ImageRGB8) (x1 y1 x2 y2 : Nat) (c : Pixel)
    (t : Nat) (hx1 : x1 < img.width) (hx2 : x2 < img.width)
    (hy1 : y1 < img.height) (hy2 : y2 < img.height) :
    ((draw_rectangle img x1 y1 x2 y2 c t).2 = some .thicknessTooLarge ↔
      t > (max x1 x2 - min x1 x2) / 2 + 1) ∧
    (t > (max x1 x2 - min x1 x2) / 2 + 1 →
      (draw_rectangle img x1 y1 x2 y2 c t).1 = img) := by
  have hb : ¬ (x1 ≥ img.width ∨ x2 ≥ img.width ∨ y1 ≥ img.height ∨
      y2 ≥ img.height) := by omega
  refine ⟨⟨?_, ?_⟩, ?_⟩
  · intro hTT
    by_contra hnot
    exact draw_rectangle_no_thickness_error t img x1 y1 x2 y2 c (by omega) hTT
  · intro hgt
    rw [draw_rectangle]
    dsimp only
    rw [if_neg hb, if_pos hgt]
  · intro hgt
    rw [draw_rectangle]
    dsimp only
    rw [if_neg hb, if_pos hgt]

/-- Witness for C6: a 5 × 5 buffer, rectangle over the full area, thickness
10 exceeds (4 / 2) + 1 = 3, so the call fails and the buffer is intact. -/
theorem C6_thickness_check_witness :
    (draw_rectangle (new 5 5 ⟨0, 0, 0⟩) 0 0 4 4 ⟨1, 1, 1⟩ 10).2 =
      some .thicknessTooLarge ∧
    (draw_rectangle (new 5 5 ⟨0, 0, 0⟩) 0 0 4 4 ⟨1, 1, 1⟩ 10).1 =
      new 5 5 ⟨0, 0, 0⟩ := by
  have H := C6_thickness_check (new 5 5 ⟨0, 0, 0⟩) 0 0 4 4 ⟨1, 1, 1⟩ 10
    (by decide) (by decide) (by decide) (by decide)
  exact ⟨H.1.mpr (by decide), H.2 (by decide)⟩

/-- C9: `draw_rectangle` with thickness 0 behaves exactly like thickness 1:
the thickness bound `(|x2 - x1| / 2) + 1` is at least 1, so neither value
trips the check, one border layer is drawn, and neither recurses.  The two
calls are equal on all inputs (in particular on every in-bounds call). -/
theorem C9_thickness_zero_eq_one (img : ImageRGB8) (x1 y1 x2 y2 : Nat)
    (c : Pixel) :
    draw_rectangle img x1 y1 x2 y2 c 0 = draw_rectangle img x1 y1 x2 y2 c 1 := by
  rw [draw_rectangle]
  rw [draw_rectangle]
  dsimp only
  by_cases h1 : x1 ≥ img.width ∨ x2 ≥ img.width ∨ y1 ≥ img.height ∨ y2 ≥ img.height
  · rw [if_pos h1, if_pos h1]
  · rw [if_neg h1, if_neg h1,
      if_neg (by omega : ¬ ((0 : Nat) > (max x1 x2 - min x1 x2) / 2 + 1)),
      if_neg (by omega : ¬ ((1 : Nat) > (max x1 x2 - min x1 x2) / 2 + 1)),
      if_neg (by omega : ¬ ((0 : Nat) > 1)),
      if_neg (by omega : ¬ ((1 : Nat) > 1))]

/-- C3 (amended): an in-bounds vertical `draw_line` call with `y1 ≤ y2`
sets every pixel of column `x1` with `y1 ≤ y ≤ y2` to exactly `color` and
leaves every other pixel unchanged.  (For `y1 > y2` the loop `y1..=y2` is
empty and nothing is drawn — see the counterexample.) -/
theorem C3_vertical_line (img : ImageRGB8) (x1 y1 y2 : Nat) (color : Pixel)
    (hWF : WF img) (hx : x1 < img.width) (hy1 : y1 < img.height)
    (hy2 : y2 < img.height) (hle : y1 ≤ y2) :
    (draw_line img x1 y1 x1 y2 color).2 = none ∧
    ∀ px py, px < img.width → py < img.height →
      pixelAt ((draw_line img x1 y1 x1 y2 color).1) px py =
        if px = x1 ∧ y1 ≤ py ∧ py ≤ y2 then color
        else pixelAt img px py := by
  have hb : ¬ (x1 ≥ img.width ∨ x1 ≥ img.width ∨ y1 ≥ img.height ∨
      y2 ≥ img.height) := by omega
  rw [draw_line]
  rw [if_neg hb, if_pos rfl]
  dsimp only
  refine ⟨rfl, ?_⟩
  intro px py hpx hpy
  simp only [pixelAt]
  rw [foldl_paint_getD _
    (fun y j => img.width * (img.height - 1 - y) + x1 = j) color dfltPix
    (fun d y => List.length_set ..) (fun d y j => getD_set ..)]
  by_cases hc : px = x1 ∧ y1 ≤ py ∧ py ≤ y2
  · rw [if_pos hc, if_pos]
    refine ⟨⟨py, ?_, ?_⟩, ?_⟩
    · rw [List.mem_range'_1]
      omega
    · rw [hc.1]
    · rw [hWF]
      exact index_lt _ _ _ _ hpx hpy
  · rw [if_neg hc, if_neg]
    rintro ⟨⟨y, hymem, heq⟩, hlt⟩
    rw [List.mem_range'_1] at hymem
    have hyh : y < img.height := by omega
    have := index_inj img.width img.height x1 y px py hx hpx hyh hpy heq
    exact hc ⟨this.1.symm, by omega, by omega⟩

/-- Witness for C3 on a 3 × 3 buffer: the vertical line from (1,0) to (1,2)
colors (1,1) and leaves (0,1) untouched. -/
theorem C3_vertical_line_witness :
    pixelAt ((draw_line (new 3 3 ⟨0, 0, 0⟩) 1 0 1 2 ⟨9, 9, 9⟩).1) 1 1 =
      ⟨9, 9, 9⟩ ∧
    pixelAt ((draw_line (new 3 3 ⟨0, 0, 0⟩) 1 0 1 2 ⟨9, 9, 9⟩).1) 0 1 =
      pixelAt (new 3 3 ⟨0, 0, 0⟩) 0 1 := by
  have H := (C3_vertical_line (new 3 3 ⟨0, 0, 0⟩) 1 0 2 ⟨9, 9, 9⟩
    (by unfold WF; decide) (by decide) (by decide) (by decide) (by decide)).2
  constructor
  · rw [H 1 1 (by decide) (by decide)]
    decide
  · rw [H 0 1 (by decide) (by decide)]
    decide

/-- Counterexample to C3 as stated: on a 3 × 3 black buffer, the in-bounds
vertical call from (1,2) down to (1,0) succeeds but draws nothing (the Rust
range `2..1` is empty), so the pixel (1,0) — inside the closed interval
between y1 and y2 — does not receive the color. -/
theorem C3_vertical_line_counterexample :
    (draw_line (new 3 3 ⟨0, 0, 0⟩) 1 2 1 0 ⟨9, 9, 9⟩).2 = none ∧
    (draw_line (new 3 3 ⟨0, 0, 0⟩) 1 2 1 0 ⟨9, 9, 9⟩).1 = new 3 3 ⟨0, 0, 0⟩ ∧
    pixelAt ((draw_line (new 3 3 ⟨0, 0, 0⟩) 1 2 1 0 ⟨9, 9, 9⟩).1) 1 0 ≠
      ⟨9, 9, 9⟩ := by
  refine ⟨by decide, by decide, by decide⟩

/-- C5 (amended): an in-bounds shallow non-vertical `draw_line` call with
ascending iterated coordinate (`x1 < x2`) iterates `x` over every integer
from `x1` to `x2` inclusive, applying one loop body per iterated `x`; each
loop body writes only the single snapped pixel or the blended pair
`pix1_ind`, `pix1_ind + width` of that `x` and leaves all other entries
unchanged.  (For `x1 > x2` the Rust range `x1..=x2` is empty and nothing is
drawn — see the counterexample.) -/
theorem C5_shallow_iteration (img : ImageRGB8) (x1 y1 x2 y2 : Nat)
    (color : Pixel) (hx1 : x1 < img.width) (hx2 : x2 < img.width)
    (hy1 : y1 < img.height) (hy2 : y2 < img.height) (hlt : x1 < x2)
    (hsl : |slopeOf x1 y1 x2 y2| ≤ 1) :
    (draw_line img x1 y1 x2 y2 color).2 = none ∧
    (draw_line img x1 y1 x2 y2 color).1.image_data =
      (List.range' x1 (x2 + 1 - x1)).foldl
        (shallowStep img.width img.height x1 y1 x2 y2 color)
        img.image_data ∧
    (∀ k, k ∈ List.range' x1 (x2 + 1 - x1) ↔ x1 ≤ k ∧ k ≤ x2) ∧
    (∀ d x j, j ≠ shallowSnapInd img.width img.height x1 y1 x2 y2 x →
      j ≠ shallowPix1Ind img.width img.height x1 y1 x2 y2 x →
      j ≠ shallowPix1Ind img.width img.height x1 y1 x2 y2 x + img.width →
      (shallowStep img.width img.height x1 y1 x2 y2 color d x).getD j dfltPix =
        d.getD j dfltPix) := by
  have hb : ¬ (x1 ≥ img.width ∨ x2 ≥ img.width ∨ y1 ≥ img.height ∨
      y2 ≥ img.height) := by omega
  have hne : ¬ (x1 = x2) := by omega
  rw [draw_line, if_neg hb, if_neg hne, if_pos hsl]
  dsimp only
  refine ⟨rfl, rfl, ?_, ?_⟩
  · intro k
    rw [List.mem_range'_1]
    omega
  · intro d x j h1 h2 h3
    rw [shallowStep]
    by_cases hn : nearInt (yExact x1 y1 x2 y2 x)
    · rw [if_pos hn, getD_set_ne _ _ _ _ _ (Ne.symm h1)]
    · rw [if_neg hn]
      dsimp only
      rw [getD_set_ne _ _ _ _ _ (Ne.symm h3), getD_set_ne _ _ _ _ _ (Ne.symm h2)]

/-- Witness for C5 on a 3 × 3 buffer with the shallow line (0,0)–(2,1). -/
theorem C5_shallow_iteration_witness :
    |slopeOf 0 0 2 1| ≤ 1 ∧
    (draw_line (new 3 3 ⟨0, 0, 0⟩) 0 0 2 1 ⟨9, 9, 9⟩).2 = none ∧
    (∀ k, k ∈ List.range' 0 (2 + 1 - 0) ↔ 0 ≤ k ∧ k ≤ 2) := by
  have hsl : |slopeOf 0 0 2 1| ≤ 1 := by
    rw [slopeOf, abs_le]
    norm_num
  have H := C5_shallow_iteration (new 3 3 ⟨0, 0, 0⟩) 0 0 2 1 ⟨9, 9, 9⟩
    (by decide) (by decide) (by decide) (by decide) (by decide) hsl
  exact ⟨hsl, H.1, H.2.2.1⟩

/-- Counterexample to C5 as stated: the in-bounds shallow call from (2,0)
to (0,2) (slope -1, `x1 > x2`) succeeds without touching any pixel — the
Rust range `2..1` is empty — so no x is iterated at all; in particular the
endpoint (2,0) stays black. -/
theorem C5_shallow_iteration_counterexample :
    (draw_line (new 3 3 ⟨0, 0, 0⟩) 2 0 0 2 ⟨9, 9, 9⟩).2 = none ∧
    (draw_line (new 3 3 ⟨0, 0, 0⟩) 2 0 0 2 ⟨9, 9, 9⟩).1 = new 3 3 ⟨0, 0, 0⟩ ∧
    pixelAt ((draw_line (new 3 3 ⟨0, 0, 0⟩) 2 0 0 2 ⟨9, 9, 9⟩).1) 2 0 ≠
      ⟨9, 9, 9⟩ := by
  have hs : |slopeOf 2 0 0 2| ≤ 1 := by
    rw [slopeOf, abs_le]
    norm_num
  have hres : draw_line (new 3 3 ⟨0, 0, 0⟩) 2 0 0 2 ⟨9, 9, 9⟩ =
      (new 3 3 ⟨0, 0, 0⟩, none) := by
    simp only [draw_line, hs, if_true]
    decide
  rw [hres]
  refine ⟨rfl, rfl, by decide⟩

/-- C4: at a non-snapped iterated `x` of the shallow branch, the loop body
blends exactly the two pixels `pix1_ind` (row `ceil(y)`) and
`pix1_ind + width`, with coverage `y - floor(y)` for the first and its
complement for the second, each channel updated by the spec formula
`round(old * (1 - coverage) + color * coverage)`; the two coverages sum
to 1, and no other entry changes. -/
theorem C4_shallow_blend (w h x1 y1 x2 y2 x : Nat) (color : Pixel)
    (d : List Pixel) (hw : 0 < w)
    (hsnap : ¬ nearInt (yExact x1 y1 x2 y2 x)) :
    shallowStep w h x1 y1 x2 y2 color d x =
      (d.set (shallowPix1Ind w h x1 y1 x2 y2 x)
        (specBlendPixel (d.getD (shallowPix1Ind w h x1 y1 x2 y2 x) dfltPix)
          color
          (yExact x1 y1 x2 y2 x - (⌊yExact x1 y1 x2 y2 x⌋ : ℚ)))).set
        (shallowPix1Ind w h x1 y1 x2 y2 x + w)
        (specBlendPixel
          (d.getD (shallowPix1Ind w h x1 y1 x2 y2 x + w) dfltPix) color
          (1 - (yExact x1 y1 x2 y2 x - (⌊yExact x1 y1 x2 y2 x⌋ : ℚ)))) ∧
    (yExact x1 y1 x2 y2 x - (⌊yExact x1 y1 x2 y2 x⌋ : ℚ)) +
      (1 - (yExact x1 y1 x2 y2 x - (⌊yExact x1 y1 x2 y2 x⌋ : ℚ))) = 1 ∧
    (∀ j, j ≠ shallowPix1Ind w h x1 y1 x2 y2 x →
      j ≠ shallowPix1Ind w h x1 y1 x2 y2 x + w →
      (shallowStep w h x1 y1 x2 y2 color d x).getD j dfltPix =
        d.getD j dfltPix) := by
  have hne : shallowPix1Ind w h x1 y1 x2 y2 x ≠
      shallowPix1Ind w h x1 y1 x2 y2 x + w := by omega
  refine ⟨?_, by ring, ?_⟩
  · rw [shallowStep, if_neg hsnap]
    dsimp only
    rw [getD_set_ne _ _ _ _ _ hne]
    have e2 : ∀ old : Pixel,
        blendPixel old color (yExact x1 y1 x2 y2 x - (⌊yExact x1 y1 x2 y2 x⌋ : ℚ))
          (1 - (yExact x1 y1 x2 y2 x - (⌊yExact x1 y1 x2 y2 x⌋ : ℚ))) =
        specBlendPixel old color
          (1 - (yExact x1 y1 x2 y2 x - (⌊yExact x1 y1 x2 y2 x⌋ : ℚ))) := by
      intro old
      rw [blendPixel, specBlendPixel, blendChannel, blendChannel, blendChannel,
        specBlendChannel, specBlendChannel, specBlendChannel, sub_sub_cancel]
    rw [e2]
    rfl
  · intro j h2 h3
    rw [shallowStep, if_neg hsnap]
    dsimp only
    rw [getD_set_ne _ _ _ _ _ (Ne.symm h3), getD_set_ne _ _ _ _ _ (Ne.symm h2)]

theorem not_nearInt_ne_int (q : ℚ) (h : ¬ nearInt q) (n : ℤ) : (n : ℚ) ≠ q := by
  intro he
  apply h
  rw [nearInt, ← he, round_intCast, sub_self, abs_zero]
  norm_num

theorem yExact_between (x1 y1 x2 y2 x : Nat) (hlt : x1 < x2) (hxl : x1 ≤ x)
    (hxr : x ≤ x2) :
    ((min y1 y2 : Nat) : ℚ) ≤ yExact x1 y1 x2 y2 x ∧
    yExact x1 y1 x2 y2 x ≤ ((max y1 y2 : Nat) : ℚ) := by
  have hxq : (x1 : ℚ) < (x2 : ℚ) := by exact_mod_cast hlt
  have hne : (x2 : ℚ) - (x1 : ℚ) ≠ 0 := by
    intro h0
    exact absurd (by linarith : (x1 : ℚ) = x2) (ne_of_lt hxq)
  have hsval : slopeOf x1 y1 x2 y2 = ((y2 : ℚ) - y1) / ((x2 : ℚ) - x1) := by
    rw [slopeOf]
    rw [div_eq_div_iff (by intro h0; apply hne; linarith) hne]
    ring
  have hyval : yExact x1 y1 x2 y2 x =
      slopeOf x1 y1 x2 y2 * ((x : ℚ) - x1) + y1 := by
    rw [yExact, Nat.cast_sub hxl]
  have hxm : (0 : ℚ) ≤ (x : ℚ) - x1 := by
    have : (x1 : ℚ) ≤ x := by exact_mod_cast hxl
    linarith
  have hxm2 : (x : ℚ) - x1 ≤ (x2 : ℚ) - x1 := by
    have : (x : ℚ) ≤ x2 := by exact_mod_cast hxr
    linarith
  have hkey : slopeOf x1 y1 x2 y2 * ((x2 : ℚ) - x1) = (y2 : ℚ) - y1 := by
    rw [hsval, div_mul_cancel₀ _ hne]
  rcases le_total y1 y2 with hy | hy
  · have hmin : min y1 y2 = y1 := Nat.min_eq_left hy
    have hmax : max y1 y2 = y2 := Nat.max_eq_right hy
    have hyq : (y1 : ℚ) ≤ (y2 : ℚ) := by exact_mod_cast hy
    have hs : 0 ≤ slopeOf x1 y1 x2 y2 := by
      rw [hsval]
      exact div_nonneg (by linarith) (by linarith)
    constructor
    · rw [hmin, hyval]
      nlinarith [mul_nonneg hs hxm]
    · rw [hmax, hyval]
      have := mul_le_mul_of_nonneg_left hxm2 hs
      nlinarith
  · have hmin : min y1 y2 = y2 := Nat.min_eq_right hy
    have hmax : max y1 y2 = y1 := Nat.max_eq_left hy
    have hyq : (y2 : ℚ) ≤ (y1 : ℚ) := by exact_mod_cast hy
    have hs : slopeOf x1 y1 x2 y2 ≤ 0 := by
      rw [hsval]
      exact div_nonpos_of_nonpos_of_nonneg (by linarith) (by linarith)
    constructor
    · rw [hmin, hyval]
      have := mul_le_mul_of_nonpos_left hxm2 hs
      nlinarith
    · rw [hmax, hyval]
      nlinarith [mul_nonpos_of_nonpos_of_nonneg hs hxm]

theorem xExact_between (x1 y1 x2 y2 y : Nat) (hyLT : y1 < y2) (hyl : y1 ≤ y)
    (hyr : y ≤ y2) (hxne : x1 ≠ x2) :
    ((min x1 x2 : Nat) : ℚ) ≤ xExact x1 y1 x2 y2 y ∧
    xExact x1 y1 x2 y2 y ≤ ((max x1 x2 : Nat) : ℚ) := by
  have hyq : (y1 : ℚ) < (y2 : ℚ) := by exact_mod_cast hyLT
  have hdne : (y2 : ℚ) - (y1 : ℚ) ≠ 0 := by
    intro h0
    exact absurd (by linarith : (y1 : ℚ) = y2) (ne_of_lt hyq)
  have hxq : (x1 : ℚ) ≠ (x2 : ℚ) := by exact_mod_cast hxne
  have hxdne : (x1 : ℚ) - (x2 : ℚ) ≠ 0 := by
    intro h0
    exact hxq (by linarith)
  have hdne2 : (y1 : ℚ) - (y2 : ℚ) ≠ 0 := by
    intro h0
    exact hdne (by linarith)
  have hxval : xExact x1 y1 x2 y2 y =
      (x1 : ℚ) + (((y : ℚ) - y1) / ((y2 : ℚ) - y1)) * ((x2 : ℚ) - x1) := by
    rw [xExact, slopeOf, Nat.cast_sub hyl, div_div_eq_mul_div]
    field_simp
    ring
  have hl0 : (0 : ℚ) ≤ ((y : ℚ) - y1) / ((y2 : ℚ) - y1) := by
    apply div_nonneg
    · have : (y1 : ℚ) ≤ y := by exact_mod_cast hyl
      linarith
    · linarith
  have hl1 : ((y : ℚ) - y1) / ((y2 : ℚ) - y1) ≤ 1 := by
    rw [div_le_one (by linarith)]
    have : (y : ℚ) ≤ y2 := by exact_mod_cast hyr
    linarith
  rcases le_total x1 x2 with hx | hx
  · have hmin : min x1 x2 = x1 := Nat.min_eq_left hx
    have hmax : max x1 x2 = x2 := Nat.max_eq_right hx
    have hxq2 : (x1 : ℚ) ≤ (x2 : ℚ) := by exact_mod_cast hx
    constructor
    · rw [hmin, hxval]
      nlinarith
    · rw [hmax, hxval]
      nlinarith
  · have hmin : min x1 x2 = x2 := Nat.min_eq_right hx
    have hmax : max x1 x2 = x1 := Nat.max_eq_left hx
    have hxq2 : (x2 : ℚ) ≤ (x1 : ℚ) := by exact_mod_cast hx
    constructor
    · rw [hmin, hxval]
      nlinarith
    · rw [hmax, hxval]
      nlinarith

theorem shallow_blend_ind_bound (w h x1 y1 x2 y2 x : Nat) (hx : x < w)
    (hy1 : y1 < h) (hy2 : y2 < h) (hlt : x1 < x2) (hxl : x1 ≤ x)
    (hxr : x ≤ x2) (hsnap : ¬ nearInt (yExact x1 y1 x2 y2 x)) :
    shallowPix1Ind w h x1 y1 x2 y2 x + w < w * h := by
  obtain ⟨hlo, hhi⟩ := yExact_between x1 y1 x2 y2 x hlt hxl hxr
  have hne := not_nearInt_ne_int _ hsnap
  have h0 : (0 : ℚ) < yExact x1 y1 x2 y2 x := by
    have hnn : (0 : ℚ) ≤ ((min y1 y2 : Nat) : ℚ) := Nat.cast_nonneg _
    have : ((0 : ℤ) : ℚ) ≠ yExact x1 y1 x2 y2 x := hne 0
    rcases lt_or_eq_of_le (le_trans hnn hlo) with h | h
    · exact h
    · exact absurd (by exact_mod_cast h : ((0 : ℤ) : ℚ) = _) (hne 0)
  have hqh : yExact x1 y1 x2 y2 x < (h : ℚ) - 1 := by
    have hmax : ((max y1 y2 : Nat) : ℚ) ≤ (h : ℚ) - 1 := by
      have hmh : (max y1 y2 : Nat) ≤ h - 1 := by omega
      have := (Nat.cast_le (α := ℚ)).2 hmh
      rw [Nat.cast_sub (by omega : 1 ≤ h)] at this
      simpa using this
    rcases lt_or_eq_of_le (le_trans hhi hmax) with hll | hll
    · exact hll
    · exfalso
      apply hne ((h : ℤ) - 1)
      rw [hll]
      push_cast
      ring
  have hc0 : 0 < ⌈yExact x1 y1 x2 y2 x⌉ := Int.ceil_pos.2 h0
  have hch : ⌈yExact x1 y1 x2 y2 x⌉ ≤ (h : ℤ) - 1 := by
    apply Int.ceil_le.2
    push_cast
    linarith
  have hcast := Int.toNat_of_nonneg (le_of_lt hc0)
  have hcn1 : 1 ≤ (Int.toNat ⌈yExact x1 y1 x2 y2 x⌉) := by omega
  have hcn2 : (Int.toNat ⌈yExact x1 y1 x2 y2 x⌉) ≤ h - 1 := by omega
  rw [shallowPix1Ind]
  have h2 : h - 1 - (Int.toNat ⌈yExact x1 y1 x2 y2 x⌉) ≤ h - 2 := by omega
  have h3 : w * (h - 1 - (Int.toNat ⌈yExact x1 y1 x2 y2 x⌉)) ≤ w * (h - 2) :=
    Nat.mul_le_mul_left w h2
  calc w * (h - 1 - (Int.toNat ⌈yExact x1 y1 x2 y2 x⌉)) + x + w
      ≤ w * (h - 2) + x + w := by
        exact Nat.add_le_add_right (Nat.add_le_add_right h3 x) w
    _ < w * (h - 2) + w + w := by
        exact Nat.add_lt_add_right (Nat.add_lt_add_left hx _) w
    _ = w * (h - 2 + 2) := by ring
    _ = w * h := by
        congr 1
        omega

theorem steep_blend_ind_bound (w h x1 y1 x2 y2 y : Nat) (hx1 : x1 < w)
    (hx2 : x2 < w) (hy : y < h) (hyLT : y1 < y2) (hyl : y1 ≤ y)
    (hyr : y ≤ y2) (hxne : x1 ≠ x2)
    (hsnap : ¬ nearInt (xExact x1 y1 x2 y2 y)) :
    steepPix1Ind w h x1 y1 x2 y2 y + 1 < w * h := by
  obtain ⟨hlo, hhi⟩ := xExact_between x1 y1 x2 y2 y hyLT hyl hyr hxne
  have hne := not_nearInt_ne_int _ hsnap
  have hw2 : 2 ≤ w := by omega
  have hqw : xExact x1 y1 x2 y2 y < (w : ℚ) - 1 := by
    have hmax : ((max x1 x2 : Nat) : ℚ) ≤ (w : ℚ) - 1 := by
      have hmw : (max x1 x2 : Nat) ≤ w - 1 := by omega
      have := (Nat.cast_le (α := ℚ)).2 hmw
      rw [Nat.cast_sub (by omega : 1 ≤ w)] at this
      simpa using this
    rcases lt_or_eq_of_le (le_trans hhi hmax) with hll | hll
    · exact hll
    · exfalso
      apply hne ((w : ℤ) - 1)
      rw [hll]
      push_cast
      ring
  have hfw : ⌊xExact x1 y1 x2 y2 y⌋ < (w : ℤ) - 1 := by
    apply Int.floor_lt.2
    push_cast
    linarith
  have hfn : (Int.toNat ⌊xExact x1 y1 x2 y2 y⌋) ≤ w - 2 := by omega
  rw [steepPix1Ind]
  have h2 : h - 1 - y ≤ h - 1 := by omega
  have h3 : w * (h - 1 - y) ≤ w * (h - 1) := Nat.mul_le_mul_left w h2
  calc w * (h - 1 - y) + (Int.toNat ⌊xExact x1 y1 x2 y2 y⌋) + 1
      ≤ w * (h - 1) + (w - 2) + 1 := by omega
    _ < w * (h - 1) + w := by omega
    _ = w * (h - 1 + 1) := by ring
    _ = w * h := by
        congr 1
        omega

/-- C10: for an in-bounds `draw_line` call with ascending iterated
coordinate, every linear index written by the blending branch is strictly
below `width * height`: in the shallow branch `pix1_ind + width` (and hence
`pix1_ind`) stays in range because the non-snapped interpolated `y` lies
strictly between 0 and `height - 1`, and in the steep branch `pix1_ind + 1`
stays in range because the non-snapped interpolated `x` lies strictly
between 0 and `width - 1`. -/
theorem C10_blend_indices_in_range (w h x1 y1 x2 y2 : Nat) (hx1 : x1 < w)
    (hx2 : x2 < w) (hy1 : y1 < h) (hy2 : y2 < h) :
    (∀ x, x1 < x2 → x1 ≤ x → x ≤ x2 → |slopeOf x1 y1 x2 y2| ≤ 1 →
      ¬ nearInt (yExact x1 y1 x2 y2 x) →
      shallowPix1Ind w h x1 y1 x2 y2 x < w * h ∧
      shallowPix1Ind w h x1 y1 x2 y2 x + w < w * h) ∧
    (∀ y, y1 < y2 → y1 ≤ y → y ≤ y2 → x1 ≠ x2 →
      1 < |slopeOf x1 y1 x2 y2| → ¬ nearInt (xExact x1 y1 x2 y2 y) →
      steepPix1Ind w h x1 y1 x2 y2 y < w * h ∧
      steepPix1Ind w h x1 y1 x2 y2 y + 1 < w * h) := by
  constructor
  · intro x hlt hxl hxr _ hsnap
    have hxw : x < w := Nat.lt_of_le_of_lt hxr hx2
    have hb := shallow_blend_ind_bound w h x1 y1 x2 y2 x hxw hy1 hy2 hlt hxl
      hxr hsnap
    exact ⟨by omega, hb⟩
  · intro y hyLT hyl hyr hxne _ hsnap
    have hyh : y < h := Nat.lt_of_le_of_lt hyr hy2
    have hb := steep_blend_ind_bound w h x1 y1 x2 y2 y hx1 hx2 hyh hyLT hyl
      hyr hxne hsnap
    exact ⟨by omega, hb⟩

theorem yExact_at_one_half : yExact 0 0 2 1 1 = 1 / 2 := by
  rw [yExact, slopeOf]
  norm_num

theorem yExact_at_one_not_near : ¬ nearInt (yExact 0 0 2 1 1) := by
  rw [nearInt, yExact_at_one_half]
  have hr : (round ((1 : ℚ) / 2) : ℤ) = 1 := by
    rw [round_eq]
    norm_num
  rw [hr]
  rw [abs_sub_lt_iff]
  norm_num

/-- Witness for C4 at the shallow line (0,0)–(2,1) on a 3 × 3 black buffer,
iterated x = 1, where the interpolated y is 1/2. -/
theorem C4_shallow_blend_witness :
    (¬ nearInt (yExact 0 0 2 1 1)) ∧
    shallowStep 3 3 0 0 2 1 ⟨255, 255, 255⟩ (List.replicate 9 dfltPix) 1 =
      ((List.replicate 9 dfltPix).set (shallowPix1Ind 3 3 0 0 2 1 1)
        (specBlendPixel
          ((List.replicate 9 dfltPix).getD (shallowPix1Ind 3 3 0 0 2 1 1)
            dfltPix) ⟨255, 255, 255⟩
          (yExact 0 0 2 1 1 - (⌊yExact 0 0 2 1 1⌋ : ℚ)))).set
        (shallowPix1Ind 3 3 0 0 2 1 1 + 3)
        (specBlendPixel
          ((List.replicate 9 dfltPix).getD (shallowPix1Ind 3 3 0 0 2 1 1 + 3)
            dfltPix) ⟨255, 255, 255⟩
          (1 - (yExact 0 0 2 1 1 - (⌊yExact 0 0 2 1 1⌋ : ℚ)))) ∧
    (yExact 0 0 2 1 1 - (⌊yExact 0 0 2 1 1⌋ : ℚ)) +
      (1 - (yExact 0 0 2 1 1 - (⌊yExact 0 0 2 1 1⌋ : ℚ))) = 1 := by
  have H := C4_shallow_blend 3 3 0 0 2 1 1 ⟨255, 255, 255⟩
    (List.replicate 9 dfltPix) (by norm_num) yExact_at_one_not_near
  exact ⟨yExact_at_one_not_near, H.1, H.2.1⟩

/-- Witness for C10 on a 3 × 3 buffer: the shallow line (0,0)–(2,1) at
x = 1 blends indices 4 and 7, both below 9. -/
theorem C10_blend_indices_in_range_witness :
    (¬ nearInt (yExact 0 0 2 1 1)) ∧ |slopeOf 0 0 2 1| ≤ 1 ∧
    shallowPix1Ind 3 3 0 0 2 1 1 < 3 * 3 ∧
    shallowPix1Ind 3 3 0 0 2 1 1 + 3 < 3 * 3 := by
  have hsl : |slopeOf 0 0 2 1| ≤ 1 := by
    rw [slopeOf, abs_le]
    norm_num
  have H := (C10_blend_indices_in_range 3 3 0 0 2 1 (by norm_num) (by norm_num)
    (by norm_num) (by norm_num)).1 1 (by norm_num) (by norm_num) (by norm_num)
    hsl yExact_at_one_not_near
  exact ⟨yExact_at_one_not_near, hsl, H.1, H.2⟩

/-- C1 (code bug): `set_pixel` performs no bounds check, so on a 4 × 4
buffer the out-of-bounds call `set_pixel(5, 2, …)` silently succeeds and
overwrites the pixel at flat index 9 (logical coordinates (1,1)) instead of
failing with `OutOfBounds` and leaving the data unmodified. -/
theorem C1_set_pixel_silent_write :
    (set_pixel (new 4 4 ⟨0, 0, 0⟩) 5 2 ⟨9, 9, 9⟩).2 = none ∧
    (set_pixel (new 4 4 ⟨0, 0, 0⟩) 5 2 ⟨9, 9, 9⟩).1.image_data ≠
      (new 4 4 ⟨0, 0, 0⟩).image_data ∧
    get_pixel (set_pixel (new 4 4 ⟨0, 0, 0⟩) 5 2 ⟨9, 9, 9⟩).1 1 1 =
      .ok ⟨9, 9, 9⟩ := by
  refine ⟨by decide, by decide, by rfl⟩

/-- C2 (code bug): on a 6 × 3 buffer the in-bounds call
`draw_rectangle(0, 2, 5, 2, color, 2)` (degenerate y-extent, thickness 2
within the x-based bound) draws the outer one-pixel layer and only then
fails: the recursive inset call gets `y1 = 3 ≥ height` and panics with the
out-of-bounds error, leaving a partially-applied shape in the buffer. -/
theorem C2_rectangle_partial_mutation :
    (draw_rectangle (new 6 3 ⟨0, 0, 0⟩) 0 2 5 2 ⟨1, 1, 1⟩ 2).2 =
      some .outOfBounds ∧
    (draw_rectangle (new 6 3 ⟨0, 0, 0⟩) 0 2 5 2 ⟨1, 1, 1⟩ 2).1.image_data ≠
      (new 6 3 ⟨0, 0, 0⟩).image_data := by
  rw [draw_rectangle]
  norm_num [new]
  rw [draw_rectangle]
  norm_num
  decide

end TinyDraw
